import Mathlib

/-!
# Verification of the TPC-H benchmark repository

Shallow embedding of the repository's four source files:

* `queries/polars/q7.py` — the polars implementation of TPC-H query 7;
* `dask_queries/utils.py` — answer loading, result verification and cached
  dataset loaders for the dask engine;
* `pandas_queries/pandas_tpch_utils.py` — the same utilities for pandas;
* `scripts/plot_bars.py` — timing-CSV reshaping (`prep_data`) and chart output.

Dataframes are embedded as lists of records, inner joins as nested
`flatMap`/`filter` loops (the row order produced by a left-deep nested-loop
execution), floating-point numbers as exact rationals, and the filesystem as a
total map from paths to file contents.  Python `str.strip` is embedded as
`pyStrip`.
-/

namespace TPCH

/-! ## Small generic list helpers -/

/-- Python `str.strip` on a list of characters: drop whitespace from both ends. -/
def stripChars (cs : List Char) : List Char :=
  ((cs.dropWhile Char.isWhitespace).reverse.dropWhile Char.isWhitespace).reverse

/-- Python `str.strip`: remove leading and trailing whitespace. -/
def pyStrip (s : String) : String :=
  ⟨stripChars s.data⟩

/-- Decimal digits of a natural number, most significant first. -/
def natDigits (n : Nat) : List Char :=
  if h : n < 10 then [Char.ofNat (48 + n)]
  else natDigits (n / 10) ++ [Char.ofNat (48 + n % 10)]
decreasing_by exact Nat.div_lt_self (by omega) (by omega)

/-- Decimal rendering of a natural number (the `{}` of a Python format string). -/
def natToStr (n : Nat) : String :=
  ⟨natDigits n⟩

/-- Inverse reading of a digit list, used to prove `natToStr` injective. -/
def unDigits (cs : List Char) : Nat :=
  cs.foldl (fun acc c => acc * 10 + (c.toNat - 48)) 0

/-- Lexicographic strict comparison of character lists (byte-wise string order,
as used by polars when sorting string columns). -/
def strLtChars : List Char → List Char → Bool
  | [], [] => false
  | [], _ :: _ => true
  | _ :: _, [] => false
  | a :: as, b :: bs => if a < b then true else if b < a then false else strLtChars as bs

/-- Strict lexicographic order on strings. -/
def strLt (a b : String) : Bool :=
  strLtChars a.data b.data

/-! ## TPC-H data model (the five relations used by query 7) -/

/-- A calendar date (year, month, day). -/
structure Date where
  year : Int
  month : Nat
  day : Nat
deriving DecidableEq

/-- Non-strict date comparison (lexicographic on year, month, day). -/
def Date.leb (a b : Date) : Bool :=
  decide (a.year < b.year) ||
    (a.year == b.year &&
      (decide (a.month < b.month) || (a.month == b.month && decide (a.day ≤ b.day))))

/-- polars `is_between` with the default closed bounds. -/
def Date.between (d lo hi : Date) : Bool :=
  Date.leb lo d && Date.leb d hi

structure Nation where
  n_nationkey : Int
  n_name : String
deriving DecidableEq

structure Customer where
  c_custkey : Int
  c_nationkey : Int
deriving DecidableEq

structure Orders where
  o_orderkey : Int
  o_custkey : Int
deriving DecidableEq

structure Supplier where
  s_suppkey : Int
  s_nationkey : Int
deriving DecidableEq

structure Lineitem where
  l_orderkey : Int
  l_suppkey : Int
  l_shipdate : Date
  l_extendedprice : Rat
  l_discount : Rat
deriving DecidableEq

/-- The row type of the five-way join in q7: customer, customer-side nation,
order, lineitem, supplier, supplier-side nation. -/
abbrev JTup := Customer × Nation × Orders × Lineitem × Supplier × Nation

/-- The customer-side nation name (renamed `cust_nation` in the source). -/
def custNation (t : JTup) : String := t.2.1.n_name

/-- The supplier-side nation name (renamed `supp_nation` in the source). -/
def suppNation (t : JTup) : String := t.2.2.2.2.2.n_name

/-- The lineitem of a joined tuple. -/
def lineOf (t : JTup) : Lineitem := t.2.2.2.1

/-- Inner part of the q7 join chain: for a fixed customer and customer-side
nation, join orders, lineitem, supplier and the supplier-side nation list. -/
def midJoin (c : Customer) (n : Nation) (os : List Orders) (ls : List Lineitem)
    (ss : List Supplier) (ns : List Nation) : List JTup :=
  (os.filter (fun o => o.o_custkey == c.c_custkey)).flatMap (fun o =>
    (ls.filter (fun l => l.l_orderkey == o.o_orderkey)).flatMap (fun l =>
      (ss.filter (fun s => s.s_suppkey == l.l_suppkey)).flatMap (fun s =>
        (ns.filter (fun n2 => n2.n_nationkey == s.s_nationkey)).map (fun n2 =>
          (c, n, o, l, s, n2)))))

/-- The left-deep join chain of q7 (`customer ⋈ nc ⋈ orders ⋈ lineitem ⋈
supplier ⋈ ns`), sequentialized as nested loops. -/
def joinedTuples (cs : List Customer) (nc : List Nation) (os : List Orders)
    (ls : List Lineitem) (ss : List Supplier) (ns : List Nation) : List JTup :=
  cs.flatMap (fun c =>
    (nc.filter (fun n => n.n_nationkey == c.c_nationkey)).flatMap (fun n =>
      midJoin c n os ls ss ns))

/-- `l_extendedprice * (1 - l_discount)`, the `volume` column. -/
def volume (t : JTup) : Rat :=
  (lineOf t).l_extendedprice * (1 - (lineOf t).l_discount)

/-- The group key `(supp_nation, cust_nation, l_year)`. -/
abbrev GKey := String × String × Int

/-- Key of a joined tuple. -/
def keyOfT (t : JTup) : GKey :=
  (suppNation t, custNation t, (lineOf t).l_shipdate.year)

/-- An output row of query 7. -/
structure QRow where
  supp_nation : String
  cust_nation : String
  l_year : Int
  revenue : Rat
deriving DecidableEq

/-- Key of an output row. -/
def rowKey (r : QRow) : GKey :=
  (r.supp_nation, r.cust_nation, r.l_year)

/-- Revenue of one group: the sum of `volume` over the tuples with that key. -/
def revSum (ts : List JTup) (k : GKey) : Rat :=
  ((ts.filter (fun t => keyOfT t == k)).map volume).sum

/-- `group_by(supp_nation, cust_nation, l_year).agg(sum(volume))`: one row per
distinct key carrying the group's summed volume. -/
def groupAgg (ts : List JTup) : List QRow :=
  ((ts.map keyOfT).dedup).map (fun k => ⟨k.1, k.2.1, k.2.2, revSum ts k⟩)

/-- Strict lexicographic order on group keys. -/
def keyLtb (a b : GKey) : Bool :=
  strLt a.1 b.1 ||
    (a.1 == b.1 &&
      (strLt a.2.1 b.2.1 || (a.2.1 == b.2.1 && decide (a.2.2 < b.2.2))))

/-- The comparison used by `sort(by=[supp_nation, cust_nation, l_year])`. -/
def qrowLe (x y : QRow) : Bool :=
  keyLtb (rowKey x) (rowKey y) || rowKey x == rowKey y

/-- The date filter of q7: `l_shipdate` between 1995-01-01 and 1996-12-31. -/
def shipdateOk (t : JTup) : Bool :=
  Date.between (lineOf t).l_shipdate ⟨1995, 1, 1⟩ ⟨1996, 12, 31⟩

/-- Embeds `queries/polars/q7.py:q`: filter the nations to FRANCE and GERMANY,
build the two join chains, concatenate, filter on the ship date, compute
`volume` and `l_year`, group, sum and sort. -/
def q (nation : List Nation) (customer : List Customer) (orders : List Orders)
    (lineitem : List Lineitem) (supplier : List Supplier) : List QRow :=
  let n1 := nation.filter (fun n => n.n_name == "FRANCE")
  let n2 := nation.filter (fun n => n.n_name == "GERMANY")
  let df1 := joinedTuples customer n1 orders lineitem supplier n2
  let df2 := joinedTuples customer n2 orders lineitem supplier n1
  let shipped := (df1 ++ df2).filter shipdateOk
  (groupAgg shipped).mergeSort qrowLe

/-- The France/Germany pair condition of the TPC-H q7 specification: the
customer nation and supplier nation are FRANCE and GERMANY in either
orientation. -/
def frGePair (t : JTup) : Bool :=
  (custNation t == "FRANCE" && suppNation t == "GERMANY") ||
    (custNation t == "GERMANY" && suppNation t == "FRANCE")

/-- The join tuples the spec's description of query 7 ranges over: every
key-matching combination of customer, nation, order, lineitem, supplier and
nation, restricted to France/Germany pairs and the two-year ship-date window. -/
def specTuples (nation : List Nation) (customer : List Customer)
    (orders : List Orders) (lineitem : List Lineitem)
    (supplier : List Supplier) : List JTup :=
  (joinedTuples customer nation orders lineitem supplier nation).filter
    (fun t => frGePair t && shipdateOk t)

/-- Modelled from the spec: the published `q7.out` reference rows for a
dataset.  The scale-1 dataset and the `tpch-dbgen/answers/q7.out` file are data
shipped outside `src/`; the spec states that the query-7 result "must, after
sorting by (supp_nation, cust_nation, l_year), equal the corresponding
published q7.out reference rows exactly", i.e. the reference rows are the
grouped revenue sums (sum of `l_extendedprice * (1 - l_discount)`) per
`(supp_nation, cust_nation, l_year)` over the France/Germany shipments of
1995-1996, sorted by that key. -/
def q7Reference (nation : List Nation) (customer : List Customer)
    (orders : List Orders) (lineitem : List Lineitem)
    (supplier : List Supplier) : List QRow :=
  (groupAgg (specTuples nation customer orders lineitem supplier)).mergeSort qrowLe

/-! ## Cached dataset loaders (claims C4, C6) -/

/-- The tables on disk, as read by the polars loader module. -/
structure PolarsStorage where
  nation : List Nation
  customer : List Customer
  orders : List Orders
  lineitem : List Lineitem
  supplier : List Supplier

/-- The process-wide cache of the polars loader module: one slot per table. -/
structure PolarsCache where
  nation : Option (List Nation)
  customer : Option (List Customer)
  orders : Option (List Orders)
  lineitem : Option (List Lineitem)
  supplier : Option (List Supplier)

/-- Modelled from the spec: `queries/polars/utils.get_nation_ds` (the polars
utils module is not under `src/`); per spec §4.1 a loader "caches its result in
process-wide state so repeated calls within one process do not re-read from
storage": return the cached table when present, otherwise read it from storage
and cache it. -/
def get_nation_ds (st : PolarsStorage) (c : PolarsCache) : List Nation × PolarsCache :=
  match c.nation with
  | some v => (v, c)
  | none => (st.nation, { c with nation := some st.nation })

/-- Modelled from the spec: `queries/polars/utils.get_customer_ds`, cached as
in `get_nation_ds`. -/
def get_customer_ds (st : PolarsStorage) (c : PolarsCache) : List Customer × PolarsCache :=
  match c.customer with
  | some v => (v, c)
  | none => (st.customer, { c with customer := some st.customer })

/-- Modelled from the spec: `queries/polars/utils.get_orders_ds`, cached as in
`get_nation_ds`. -/
def get_orders_ds (st : PolarsStorage) (c : PolarsCache) : List Orders × PolarsCache :=
  match c.orders with
  | some v => (v, c)
  | none => (st.orders, { c with orders := some st.orders })

/-- Modelled from the spec: `queries/polars/utils.get_line_item_ds`, cached as
in `get_nation_ds`. -/
def get_line_item_ds (st : PolarsStorage) (c : PolarsCache) : List Lineitem × PolarsCache :=
  match c.lineitem with
  | some v => (v, c)
  | none => (st.lineitem, { c with lineitem := some st.lineitem })

/-- Modelled from the spec: `queries/polars/utils.get_supplier_ds`, cached as
in `get_nation_ds`. -/
def get_supplier_ds (st : PolarsStorage) (c : PolarsCache) : List Supplier × PolarsCache :=
  match c.supplier with
  | some v => (v, c)
  | none => (st.supplier, { c with supplier := some st.supplier })

/-- One run of `q()` as the source performs it: load the five tables through
the cached loaders (in source order), then compute the query result. -/
def qRun (st : PolarsStorage) (c : PolarsCache) : List QRow × PolarsCache :=
  let rn := get_nation_ds st c
  let rc := get_customer_ds st rn.2
  let rl := get_line_item_ds st rc.2
  let ro := get_orders_ds st rl.2
  let rs := get_supplier_ds st ro.2
  (q rn.1 rc.1 ro.1 rl.1 rs.1, rs.2)

/-- POSIX `os.path.join` for the paths appearing in the sources. -/
def joinPath (a b : String) : String :=
  a ++ "/" ++ b

/-- Embeds `dask_queries/utils.get_line_item_ds`: `__read_parquet_ds` on
`lineitem.parquet` under the base directory (the parquet read is abstracted as
a lookup in the storage map, counting one storage read), wrapped in the
`on_second_call` decorator.  That decorator comes from the repo's shared
`utils` module, which is not under `src/`; it is modelled from the spec
(§4.1, §9): a single process-wide cache slot per wrapped function, so repeated
calls return the first call's result without reading storage again.  The state
is the cache slot paired with a count of storage reads. -/
def get_line_item_ds_dask {α : Type} (storage : String → α) (base_dir : String)
    (st : Option α × Nat) : α × (Option α × Nat) :=
  match st.1 with
  | some v => (v, st)
  | none =>
    let r := storage (joinPath base_dir "lineitem.parquet")
    (r, (some r, st.2 + 1))

/-- Embeds `pandas_queries/pandas_tpch_utils.get_line_item_ds`: no caching
decorator; every call reads `lineitem.parquet` from storage.  The `Nat`
argument counts storage reads. -/
def get_line_item_ds_pandas {α : Type} (storage : String → α) (base_dir : String)
    (reads : Nat) : α × Nat :=
  (storage (joinPath base_dir "lineitem.parquet"), reads + 1)

/-! ## Reference answers and the result verifier (claims C2, C3, C7) -/

/-- A column of a pandas dataframe: its name, whether its dtype is `object`
(string-like), and its cell values rendered as strings. -/
structure Column where
  name : String
  is_object : Bool
  values : List String
deriving DecidableEq

/-- Split a character list at every pipe character. -/
def splitCells (cs : List Char) : List (List Char) :=
  cs.foldr
    (fun c acc => if c = '|' then [] :: acc else (c :: acc.headD []) :: acc.tail)
    [[]]

/-- Split a pipe-delimited line into its fields. -/
def splitPipe (line : String) : List String :=
  (splitCells line.data).map String.mk

/-- Abstracts pandas `read_csv` dtype inference: a cell is numeric when
nonempty and made of digits, periods and minus signs. -/
def isNumericCell (s : String) : Bool :=
  decide (s ≠ "") && s.data.all (fun ch => ch.isDigit || ch == '.' || ch == '-')

/-- A parsed column gets `object` dtype unless every cell is numeric. -/
def inferObject (vals : List String) : Bool :=
  ! vals.all isNumericCell

/-- `pd.read_csv(..., sep="|")`: first line is the header, remaining lines are
rows; one column per header field. -/
def parseCsv (lines : List String) : List Column :=
  match lines with
  | [] => []
  | header :: body =>
    let names := splitPipe header
    let rows := body.map splitPipe
    names.enum.map (fun p =>
      let vals := rows.map (fun r => r.getD p.1 "")
      { name := p.2, is_object := inferObject vals, values := vals })

/-- The default answers directory (`pandas_tpch_utils.__default_answers_base_dir`;
the dask module imports the same default from the shared `utils` module). -/
def defaultAnswersDir : String :=
  "tpch-dbgen/answers"

/-- Embeds `get_query_answer` (both variants): read the pipe-delimited file
`q{query}.out` under the base directory and strip whitespace from each column
name (`rename(columns=lambda x: x.strip())`).  The filesystem is the map `fs`
from paths to file lines. -/
def get_query_answer (query : Nat) (fs : String → List String)
    (base_dir : String) : List Column :=
  let answer_df := parseCsv (fs (joinPath base_dir ("q" ++ natToStr query ++ ".out")))
  answer_df.map (fun c => { c with name := pyStrip c.name })

/-- `result_df[c]`: select a column by name. -/
def findColumn (t : List Column) (nm : String) : Option Column :=
  t.find? (fun c => c.name == nm)

/-- Embeds the comparison loop of `dask_queries/utils.test_results`: for every
answer column, select the result column of the same name; object columns of
BOTH sides are cast to string and whitespace-stripped per cell; then
`assert_series_equal` demands equal dtype and equal cells (index ignored,
matching `check_index=False`).  `false` means the assertion error is raised. -/
def compareColumnsDask (answer result : List Column) : Bool :=
  answer.all (fun ac =>
    match findColumn result ac.name with
    | none => false
    | some rc =>
      if ac.is_object then (rc.values.map pyStrip) == (ac.values.map pyStrip)
      else rc.is_object == ac.is_object && rc.values == ac.values)

/-- Embeds the comparison loop of
`pandas_queries/pandas_tpch_utils.test_results`: object columns of both sides
are cast to string but NOT stripped; other columns must agree in dtype and
cells.  `false` means the assertion error is raised. -/
def compareColumnsPandas (answer result : List Column) : Bool :=
  answer.all (fun ac =>
    match findColumn result ac.name with
    | none => false
    | some rc =>
      if ac.is_object then rc.values == ac.values
      else rc.is_object == ac.is_object && rc.values == ac.values)

/-- Embeds `dask_queries/utils.test_results`: load the matching reference
answer with `get_query_answer`, then run the comparison loop. -/
def test_results_dask (q_num : Nat) (fs : String → List String)
    (result_df : List Column) : Bool :=
  compareColumnsDask (get_query_answer q_num fs defaultAnswersDir) result_df

/-- Embeds `pandas_queries/pandas_tpch_utils.test_results`: load the matching
reference answer with `get_query_answer`, then run the comparison loop. -/
def test_results_pandas (q_num : Nat) (fs : String → List String)
    (result_df : List Column) : Bool :=
  compareColumnsPandas (get_query_answer q_num fs defaultAnswersDir) result_df

/-- The per-column normalization the dask verifier applies to both sides
before comparing: object columns are stripped cell-wise. -/
def normDask (isObj : Bool) (vs : List String) : List String :=
  if isObj then vs.map pyStrip else vs

/-- A tiny filesystem used to instantiate theorems about the verifier: every
path holds a two-column reference file with one data row. -/
def witnessFs : String → List String :=
  fun _ => ["a|b", "x|1"]

/-- A computed result matching the reference of `witnessFs`. -/
def witnessResult : List Column :=
  [{ name := "a", is_object := true, values := ["x"] },
   { name := "b", is_object := false, values := ["1"] }]

/-! ## plot_bars: prep_data and write_plot_image (claims C5, C8, C9, C10) -/

/-- One row of the timing CSV (`scale_factor` is dropped immediately by the
script and therefore not modelled). -/
structure TimingRecord where
  solution : String
  version : String
  query_number : Nat
  include_io : Bool
  duration : Rat
deriving DecidableEq

/-- The `COLORS` mapping of `scripts/plot_bars.py`, in source order. -/
def COLORS : List (String × String) :=
  [("polars", "#0075FF"), ("polars-eager", "#00B4D8"), ("duckdb", "#80B9C8"),
   ("pyspark", "#C29470"), ("dask", "#77D487"), ("pandas", "#2B8C5D"),
   ("modin", "#50B05F")]

/-- The keys of `COLORS`, in key order. -/
def colorKeys : List String :=
  COLORS.map (fun p => p.1)

/-- The grouping key `(solution, version, query_number)`. -/
def tkey (r : TimingRecord) : String × String × Nat :=
  (r.solution, r.version, r.query_number)

/-- The include-IO filter followed by the `query_number <= n_queries` filter. -/
def filteredTimings (include_io : Bool) (n : Nat) (csv : List TimingRecord) :
    List TimingRecord :=
  (csv.filter (fun r => r.include_io == include_io)).filter
    (fun r => decide (r.query_number ≤ n))

/-- `group_by(solution, version, query_number).last()`: one record per distinct
key, keeping the last occurrence. -/
def groupLast (rows : List TimingRecord) : List TimingRecord :=
  ((rows.map tkey).dedup).filterMap
    (fun k => (rows.filter (fun r => tkey r == k)).getLast?)

/-- `lf.select(solution, version).unique()`. -/
def groupsOf (g : List TimingRecord) : List (String × String) :=
  (g.map (fun r => (r.solution, r.version))).dedup

/-- `range(1, n_queries + 1)`. -/
def queryRange (n : Nat) : List Nat :=
  (List.range n).map (fun i => i + 1)

/-- A row of `groups_queries.join(lf, ..., how="left")`: the key columns plus a
possibly-null duration. -/
structure JoinedRow where
  solution : String
  version : String
  query_number : Nat
  duration : Option Rat
deriving DecidableEq

/-- One cell of the left join: the key columns for (solution, version, query)
plus the matching grouped timings' durations, or a single null row when there
is no match. -/
def cellJL (g : List TimingRecord) (sv : String × String) (qn : Nat) :
    List JoinedRow :=
  if (g.filter (fun r => tkey r == (sv.1, sv.2, qn))).isEmpty
  then [⟨sv.1, sv.2, qn, none⟩]
  else (g.filter (fun r => tkey r == (sv.1, sv.2, qn))).map
    (fun r => ⟨sv.1, sv.2, qn, some r.duration⟩)

/-- The cross join of the (solution, version) groups with the query range,
left-joined against the grouped timings. -/
def joinLeft (groups : List (String × String)) (qs : List Nat)
    (g : List TimingRecord) : List JoinedRow :=
  groups.flatMap (fun sv => qs.flatMap (fun qn => cellJL g sv qn))

/-- A row after `fill_null(0)`. -/
structure FilledRow where
  solution : String
  version : String
  query_number : Nat
  duration : Rat
deriving DecidableEq

/-- `with_columns(col("duration[s]").fill_null(0))`. -/
def fillNullZero (j : List JoinedRow) : List FilledRow :=
  j.map (fun r => ⟨r.solution, r.version, r.query_number, r.duration.getD 0⟩)

/-- `lf.select("solution").collect().to_series().unique()`. -/
def solutionsInData (j : List FilledRow) : List String :=
  (j.map (fun r => r.solution)).dedup

/-- `[s for s in COLORS if s in solutions_in_data]`. -/
def solutionFrame (j : List FilledRow) : List String :=
  colorKeys.filter (fun s => (solutionsInData j).contains s)

/-- The final ordering left-join on `solution`: for each solution of the
ordered frame, all its rows.  (The null branch of the left join cannot fire:
the frame only lists solutions present in the data.) -/
def joinBySolution (sols : List String) (j : List FilledRow) : List FilledRow :=
  sols.flatMap (fun s => j.filter (fun r => r.solution == s))

/-- An output row of `prep_data` (`query` is the formatted string column). -/
structure PlotRow where
  solution : String
  version : String
  query : String
  duration : Rat
deriving DecidableEq

/-- `pl.format("Q{}", query_number)`. -/
def formatQ (n : Nat) : String :=
  "Q" ++ natToStr n

/-- Embeds `scripts/plot_bars.prep_data`: filter on include-IO and query range,
keep the last timing per (solution, version, query_number), cross-join the
groups with the full query range filling missing durations with 0, order by the
COLORS key order (dropping solutions not in COLORS), and format the query
number as a string. -/
def prep_data (include_io : Bool) (n : Nat) (csv : List TimingRecord) :
    List PlotRow :=
  let lf := filteredTimings include_io n csv
  let grouped := groupLast lf
  let joined := fillNullZero (joinLeft (groupsOf grouped) (queryRange n) grouped)
  let final := joinBySolution (solutionFrame joined) joined
  final.map (fun r => ⟨r.solution, r.version, formatQ r.query_number, r.duration⟩)

/-- A one-row timing CSV used to instantiate the prep_data theorems. -/
def witnessCsv : List TimingRecord :=
  [⟨"polars", "1.0", 1, false, 5⟩]

/-- A timing CSV with two rows for the same (solution, version, query), used to
instantiate the last-entry theorem. -/
def witnessCsv2 : List TimingRecord :=
  [⟨"polars", "1.0", 1, false, 5⟩, ⟨"polars", "1.0", 1, false, 7⟩]

/-- The file written by `write_plot_image`: target directory, file name and
HTML content. -/
structure WrittenFile where
  dir : String
  file_name : String
  content : String
deriving DecidableEq

/-- Embeds `scripts/plot_bars.write_plot_image`: write the figure's HTML into
the configured plots directory, under a name determined by the include-IO
setting (the `mkdir` of a missing directory is not modelled). -/
def write_plot_image (include_io : Bool) (plots_dir : String)
    (fig_html : String) : WrittenFile :=
  let file_name := if include_io then "plot_with_io.html" else "plot_without_io.html"
  { dir := plots_dir, file_name := file_name, content := fig_html }

/-! ## Helper lemmas: string order -/

theorem strLtChars_asymm : ∀ {a b : List Char},
    strLtChars a b = true → strLtChars b a = true → False := by
  intro a
  induction a with
  | nil => intro b h1 h2; cases b <;> simp [strLtChars] at h1 h2
  | cons x xs ih =>
    intro b h1 h2
    cases b with
    | nil => simp [strLtChars] at h1
    | cons y ys =>
      simp only [strLtChars] at h1 h2
      by_cases hxy : x < y
      · have hyx : ¬ y < x := lt_asymm hxy
        simp [hxy, hyx] at h2
      · by_cases hyx : y < x
        · simp [hxy, hyx] at h1
        · simp [hxy, hyx] at h1 h2
          exact ih h1 h2

theorem strLtChars_trans : ∀ {a b c : List Char},
    strLtChars a b = true → strLtChars b c = true → strLtChars a c = true := by
  intro a
  induction a with
  | nil =>
    intro b c h1 h2
    cases b with
    | nil => simp [strLtChars] at h1
    | cons y ys =>
      cases c with
      | nil => simp [strLtChars] at h2
      | cons z zs => simp [strLtChars]
  | cons x xs ih =>
    intro b c h1 h2
    cases b with
    | nil => simp [strLtChars] at h1
    | cons y ys =>
      cases c with
      | nil => simp [strLtChars] at h2
      | cons z zs =>
        simp only [strLtChars] at h1 h2 ⊢
        by_cases hxy : x < y
        · by_cases hyz : y < z
          · have hxz : x < z := lt_trans hxy hyz
            simp [hxz]
          · by_cases hzy : z < y
            · simp [hyz, hzy] at h2
            · have hyzeq : y = z := le_antisymm (not_lt.mp hzy) (not_lt.mp hyz)
              subst hyzeq
              simp [hxy]
        · by_cases hyx : y < x
          · simp [hxy, hyx] at h1
          · have hxyeq : x = y := le_antisymm (not_lt.mp hyx) (not_lt.mp hxy)
            subst hxyeq
            simp only [lt_irrefl, if_false] at h1
            by_cases hyz : x < z
            · simp [hyz]
            · by_cases hzy : z < x
              · simp [hyz, hzy] at h2
              · simp only [hyz, hzy, if_false] at h2 ⊢
                exact ih h1 h2

theorem strLtChars_eq_of_not_lt : ∀ {a b : List Char},
    strLtChars a b = false → strLtChars b a = false → a = b := by
  intro a
  induction a with
  | nil => intro b h1 _; cases b with
    | nil => rfl
    | cons y ys => simp [strLtChars] at h1
  | cons x xs ih =>
    intro b h1 h2
    cases b with
    | nil => simp [strLtChars] at h2
    | cons y ys =>
      simp only [strLtChars] at h1 h2
      by_cases hxy : x < y
      · simp [hxy] at h1
      · by_cases hyx : y < x
        · simp [hxy, hyx] at h2
        · have hxyeq : x = y := le_antisymm (not_lt.mp hyx) (not_lt.mp hxy)
          subst hxyeq
          simp only [lt_irrefl, if_false] at h1 h2
          exact congrArg (x :: ·) (ih h1 h2)

theorem strLt_asymm {a b : String} (h1 : strLt a b = true) (h2 : strLt b a = true) :
    False :=
  strLtChars_asymm h1 h2

theorem strLt_trans {a b c : String} (h1 : strLt a b = true)
    (h2 : strLt b c = true) : strLt a c = true :=
  strLtChars_trans h1 h2

theorem strLt_eq_of_not_lt {a b : String} (h1 : strLt a b = false)
    (h2 : strLt b a = false) : a = b := by
  cases a with
  | mk da => cases b with
    | mk db => exact congrArg String.mk (strLtChars_eq_of_not_lt h1 h2)

/-! ## Helper lemmas: key order -/

theorem strLt_irrefl (a : String) : strLt a a ≠ true :=
  fun h => strLt_asymm h h

theorem keyLtb_asymm {a b : GKey} (h1 : keyLtb a b = true)
    (h2 : keyLtb b a = true) : False := by
  simp only [keyLtb, Bool.or_eq_true, Bool.and_eq_true, beq_iff_eq,
    decide_eq_true_eq] at h1 h2
  rcases h1 with h1 | ⟨e1, h1⟩
  · rcases h2 with h2 | ⟨e2, _⟩
    · exact strLt_asymm h1 h2
    · rw [e2] at h1
      exact strLt_irrefl _ h1
  · rcases h2 with h2 | ⟨_, h2⟩
    · rw [e1] at h2
      exact strLt_irrefl _ h2
    · rcases h1 with h1 | ⟨f1, h1⟩
      · rcases h2 with h2 | ⟨f2, _⟩
        · exact strLt_asymm h1 h2
        · rw [f2] at h1
          exact strLt_irrefl _ h1
      · rcases h2 with h2 | ⟨_, h2⟩
        · rw [f1] at h2
          exact strLt_irrefl _ h2
        · omega

theorem keyLtb_trans {a b c : GKey} (h1 : keyLtb a b = true)
    (h2 : keyLtb b c = true) : keyLtb a c = true := by
  simp only [keyLtb, Bool.or_eq_true, Bool.and_eq_true, beq_iff_eq,
    decide_eq_true_eq] at h1 h2 ⊢
  rcases h1 with h1 | ⟨e1, h1⟩
  · rcases h2 with h2 | ⟨e2, _⟩
    · exact Or.inl (strLt_trans h1 h2)
    · exact Or.inl (e2 ▸ h1)
  · rcases h2 with h2 | ⟨e2, h2⟩
    · exact Or.inl (e1 ▸ h2)
    · refine Or.inr ⟨e1.trans e2, ?_⟩
      rcases h1 with h1 | ⟨f1, h1⟩
      · rcases h2 with h2 | ⟨f2, _⟩
        · exact Or.inl (strLt_trans h1 h2)
        · exact Or.inl (f2 ▸ h1)
      · rcases h2 with h2 | ⟨f2, h2⟩
        · exact Or.inl (f1 ▸ h2)
        · exact Or.inr ⟨f1.trans f2, by omega⟩

theorem keyLtb_eq_of_not_lt {a b : GKey} (h1 : keyLtb a b = false)
    (h2 : keyLtb b a = false) : a = b := by
  simp only [keyLtb, Bool.or_eq_false_iff, Bool.and_eq_false_iff] at h1 h2
  obtain ⟨l1, m1⟩ := h1
  obtain ⟨l2, m2⟩ := h2
  have e1 : a.1 = b.1 := strLt_eq_of_not_lt l1 l2
  rcases m1 with m1 | m1
  · rw [e1] at m1; simp at m1
  rcases m2 with m2 | m2
  · rw [e1] at m2; simp at m2
  obtain ⟨l1b, m1b⟩ := m1
  obtain ⟨l2b, m2b⟩ := m2
  have e2 : a.2.1 = b.2.1 := strLt_eq_of_not_lt l1b l2b
  rcases m1b with m1c | m1c
  · rw [e2] at m1c; simp at m1c
  rcases m2b with m2c | m2c
  · rw [e2] at m2c; simp at m2c
  have e3 : a.2.2 = b.2.2 := by
    simp only [decide_eq_false_iff_not, not_lt] at m1c m2c
    omega
  have h2nd : a.2 = b.2 := Prod.ext e2 e3
  exact Prod.ext e1 h2nd

theorem qrowLe_trans : ∀ (x y z : QRow), qrowLe x y = true → qrowLe y z = true →
    qrowLe x z = true := by
  intro x y z h1 h2
  simp only [qrowLe, Bool.or_eq_true, beq_iff_eq] at h1 h2 ⊢
  rcases h1 with h1 | h1
  · rcases h2 with h2 | h2
    · exact Or.inl (keyLtb_trans h1 h2)
    · exact Or.inl (h2 ▸ h1)
  · rcases h2 with h2 | h2
    · exact Or.inl (h1 ▸ h2)
    · exact Or.inr (h1.trans h2)

theorem qrowLe_total : ∀ (x y : QRow), (qrowLe x y || qrowLe y x) = true := by
  intro x y
  simp only [qrowLe, Bool.or_eq_true, beq_iff_eq]
  rcases h1 : keyLtb (rowKey x) (rowKey y) with _ | _
  · rcases h2 : keyLtb (rowKey y) (rowKey x) with _ | _
    · exact Or.inl (Or.inr (keyLtb_eq_of_not_lt h1 h2))
    · exact Or.inr (Or.inl rfl)
  · exact Or.inl (Or.inl rfl)

/-! ## Helper lemmas: decimal rendering is injective -/

theorem unDigits_append (xs ys : List Char) :
    unDigits (xs ++ ys) = (ys.foldl (fun acc c => acc * 10 + (c.toNat - 48)) (unDigits xs)) := by
  simp [unDigits, List.foldl_append]

theorem natDigits_ne_nil (n : Nat) : natDigits n ≠ [] := by
  unfold natDigits
  split
  · simp
  · simp

theorem unDigits_natDigits (n : Nat) : unDigits (natDigits n) = n := by
  induction n using Nat.strong_induction_on with
  | _ n ih =>
    unfold natDigits
    split
    · rename_i h
      interval_cases n <;> decide
    · rename_i h
      rw [unDigits_append, ih (n / 10) (Nat.div_lt_self (by omega) (by omega))]
      have hm : n % 10 < 10 := Nat.mod_lt _ (by omega)
      have : (Char.ofNat (48 + n % 10)).toNat = 48 + n % 10 := by
        interval_cases hmi : (n % 10) <;> decide
      simp only [List.foldl_cons, List.foldl_nil, this]
      omega

theorem natToStr_injective {m n : Nat} (h : natToStr m = natToStr n) : m = n := by
  have : natDigits m = natDigits n := congrArg String.data h
  calc m = unDigits (natDigits m) := (unDigits_natDigits m).symm
    _ = unDigits (natDigits n) := by rw [this]
    _ = n := unDigits_natDigits n

theorem formatQ_injective {m n : Nat} (h : formatQ m = formatQ n) : m = n := by
  apply natToStr_injective
  have hd : ("Q" ++ natToStr m).data = ("Q" ++ natToStr n).data := congrArg String.data h
  rw [String.data_append, String.data_append] at hd
  have hdd : (natToStr m).data = (natToStr n).data := List.append_cancel_left hd
  cases hm : natToStr m with
  | mk dm => cases hn : natToStr n with
    | mk dn =>
      rw [hm, hn] at hdd
      simp only at hdd
      exact congrArg String.mk hdd

/-! ## Helper lemmas: generic list facts -/

theorem flatMap_congr {α β : Type} {l : List α} {f g : α → List β}
    (h : ∀ a ∈ l, f a = g a) : l.flatMap f = l.flatMap g := by
  induction l with
  | nil => rfl
  | cons a t ih =>
    simp only [List.flatMap_cons]
    rw [h a (List.mem_cons_self a t), ih (fun x hx => h x (List.mem_cons_of_mem a hx))]

theorem flatMap_const_nil {α β : Type} (l : List α) :
    (l.flatMap fun _ => ([] : List β)) = [] := by
  induction l with
  | nil => rfl
  | cons a t ih => simp [List.flatMap_cons, ih]

theorem flatMap_filter_guard {α β : Type} (l : List α) (q : α → Bool)
    (g : α → List β) :
    (l.filter q).flatMap g = l.flatMap (fun a => if q a then g a else []) := by
  induction l with
  | nil => rfl
  | cons a t ih =>
    by_cases hq : q a
    · simp [List.filter_cons, hq, List.flatMap_cons, ih]
    · simp [List.filter_cons, hq, List.flatMap_cons, ih]

theorem filter_append_perm_or {α : Type} (l : List α) (p r : α → Bool)
    (h : ∀ a, ¬(p a = true ∧ r a = true)) :
    (l.filter p ++ l.filter r).Perm (l.filter (fun a => p a || r a)) := by
  induction l with
  | nil => simp
  | cons a t ih =>
    by_cases hp : p a = true
    · have hr : ¬ r a = true := fun hr => h a ⟨hp, hr⟩
      simp only [List.filter_cons, hp, hr, if_true, if_false, Bool.or_eq_true]
      simp only [hp, true_or, if_true, List.cons_append]
      exact ih.cons a
    · by_cases hr : r a = true
      · simp only [List.filter_cons, hp, hr, if_true, if_false, Bool.or_eq_true]
        simp only [hr, or_true, if_true]
        exact List.perm_middle.trans (ih.cons a)
      · simp only [List.filter_cons, hp, hr, if_false, Bool.or_eq_true]
        simpa [hp, hr] using ih

theorem sum_map_single {α : Type} {l : List α} (hnd : l.Nodup) (a : α)
    (ha : a ∈ l) (f : α → Nat) (h0 : ∀ b ∈ l, b ≠ a → f b = 0) :
    (l.map f).sum = f a := by
  induction l with
  | nil => cases ha
  | cons x t ih =>
    rcases List.mem_cons.mp ha with rfl | hat
    · have : ∀ b ∈ t, f b = 0 := fun b hb =>
        h0 b (List.mem_cons_of_mem _ hb) (fun he => (List.nodup_cons.mp hnd).1 (he ▸ hb))
      have hz : (t.map f).sum = 0 := by
        rw [List.sum_eq_zero]
        intro x hx
        obtain ⟨b, hb, rfl⟩ := List.mem_map.mp hx
        exact this b hb
      simp [hz]
    · have hx0 : f x = 0 := h0 x (List.mem_cons_self _ _)
        (fun he => (List.nodup_cons.mp hnd).1 (he ▸ hat))
      have := ih (List.nodup_cons.mp hnd).2 hat
        (fun b hb hne => h0 b (List.mem_cons_of_mem _ hb) hne)
      simp [hx0, this]

theorem nodup_map_filterMap {κ ρ : Type} {l : List κ} (hl : l.Nodup)
    (f : κ → Option ρ) (g : ρ → κ) (hinv : ∀ k r, f k = some r → g r = k) :
    ((l.filterMap f).map g).Nodup := by
  induction l with
  | nil => simp
  | cons k t ih =>
    obtain ⟨hk, ht⟩ := List.nodup_cons.mp hl
    cases hf : f k with
    | none => simpa [List.filterMap_cons, hf] using ih ht
    | some r =>
      simp only [List.filterMap_cons, hf, List.map_cons, List.nodup_cons]
      refine ⟨?_, ih ht⟩
      intro hmem
      obtain ⟨r2, hr2, hgr2⟩ := List.mem_map.mp hmem
      obtain ⟨k2, hk2, hfk2⟩ := List.mem_filterMap.mp hr2
      have : k2 = g r2 := (hinv k2 r2 hfk2).symm
      rw [hgr2, hinv k r hf] at this
      exact hk (this ▸ hk2)

/-! ## Helper lemmas: the q7 join chain as a filter of the full join -/

theorem filter_midJoin (f g : Nation → Bool) (c : Customer) (n : Nation)
    (os : List Orders) (ls : List Lineitem) (ss : List Supplier)
    (nation : List Nation) :
    (midJoin c n os ls ss nation).filter (fun t => f t.2.1 && g t.2.2.2.2.2)
      = if f n then midJoin c n os ls ss (nation.filter g) else [] := by
  unfold midJoin
  by_cases hf : f n
  · rw [if_pos hf, List.filter_flatMap]
    apply flatMap_congr; intro o ho
    rw [List.filter_flatMap]
    apply flatMap_congr; intro l hl
    rw [List.filter_flatMap]
    apply flatMap_congr; intro s hs
    rw [List.filter_map, List.filter_filter, List.filter_filter]
    congr 1
    apply List.filter_congr
    intro n2 _
    simp [Function.comp, hf, Bool.and_comm]
  · rw [if_neg hf]
    have hf0 : f n = false := Bool.not_eq_true _ |>.mp hf
    simp [List.filter_flatMap, List.filter_map, Function.comp, hf0,
      flatMap_const_nil]

theorem joinedTuples_filter (cs : List Customer) (os : List Orders)
    (ls : List Lineitem) (ss : List Supplier) (nation : List Nation)
    (f g : Nation → Bool) :
    joinedTuples cs (nation.filter f) os ls ss (nation.filter g)
      = (joinedTuples cs nation os ls ss nation).filter
          (fun t => f t.2.1 && g t.2.2.2.2.2) := by
  unfold joinedTuples
  rw [List.filter_flatMap]
  apply flatMap_congr; intro c hc
  rw [List.filter_flatMap, List.filter_filter, flatMap_filter_guard,
    flatMap_filter_guard]
  apply flatMap_congr; intro nn hn
  by_cases h1 : (nn.n_nationkey == c.c_nationkey)
  · by_cases h2 : f nn
    · simp [h1, h2, filter_midJoin]
    · simp [h1, Bool.not_eq_true _ |>.mp h2, filter_midJoin]
  · simp [Bool.not_eq_true _ |>.mp h1]

/-- The tuples of q7's concatenated, date-filtered join chains are a
permutation of the spec's tuple set. -/
theorem shipped_perm_spec (nation : List Nation) (customer : List Customer)
    (orders : List Orders) (lineitem : List Lineitem)
    (supplier : List Supplier) :
    ((joinedTuples customer (nation.filter (fun n => n.n_name == "FRANCE"))
        orders lineitem supplier (nation.filter (fun n => n.n_name == "GERMANY"))
      ++ joinedTuples customer (nation.filter (fun n => n.n_name == "GERMANY"))
        orders lineitem supplier
        (nation.filter (fun n => n.n_name == "FRANCE"))).filter shipdateOk).Perm
      (specTuples nation customer orders lineitem supplier) := by
  rw [joinedTuples_filter, joinedTuples_filter]
  set all := joinedTuples customer nation orders lineitem supplier nation with hall
  have hdisj : ∀ t : JTup, ¬(((fun t : JTup => (fun n => n.n_name == "FRANCE") t.2.1
        && (fun n => n.n_name == "GERMANY") t.2.2.2.2.2) t = true)
      ∧ ((fun t : JTup => (fun n => n.n_name == "GERMANY") t.2.1
        && (fun n => n.n_name == "FRANCE") t.2.2.2.2.2) t = true)) := by
    intro t ⟨h1, h2⟩
    simp only [Bool.and_eq_true, beq_iff_eq] at h1 h2
    have : ("FRANCE" : String) = "GERMANY" := h1.1.symm.trans h2.1
    exact absurd this (by decide)
  have hperm := filter_append_perm_or all _ _ hdisj
  have := hperm.filter shipdateOk
  refine this.trans ?_
  rw [List.filter_filter]
  unfold specTuples
  rw [← hall]
  apply List.Perm.of_eq
  apply List.filter_congr
  intro t _
  simp only [frGePair, custNation, suppNation]
  rw [Bool.and_comm]

/-! ## Helper lemmas: grouping and sorting respect permutation -/

theorem revSum_perm {A B : List JTup} (h : A.Perm B) (k : GKey) :
    revSum A k = revSum B k :=
  ((h.filter _).map volume).sum_eq

theorem groupAgg_perm {A B : List JTup} (h : A.Perm B) :
    (groupAgg A).Perm (groupAgg B) := by
  unfold groupAgg
  have hk : ((A.map keyOfT).dedup).Perm ((B.map keyOfT).dedup) :=
    (h.map keyOfT).dedup
  have step1 : (((A.map keyOfT).dedup).map
      (fun k : GKey => QRow.mk k.1 k.2.1 k.2.2 (revSum A k))).Perm
      (((B.map keyOfT).dedup).map
      (fun k : GKey => QRow.mk k.1 k.2.1 k.2.2 (revSum A k))) :=
    hk.map _
  have step2 : ((B.map keyOfT).dedup).map
      (fun k : GKey => QRow.mk k.1 k.2.1 k.2.2 (revSum A k))
      = ((B.map keyOfT).dedup).map
      (fun k : GKey => QRow.mk k.1 k.2.1 k.2.2 (revSum B k)) := by
    apply List.map_congr_left
    intro k _
    rw [revSum_perm h]
  rw [step2] at step1
  exact step1

theorem rowKey_mk (k : GKey) (v : Rat) : rowKey ⟨k.1, k.2.1, k.2.2, v⟩ = k :=
  rfl

theorem groupAgg_map_rowKey (ts : List JTup) :
    (groupAgg ts).map rowKey = (ts.map keyOfT).dedup := by
  unfold groupAgg
  rw [List.map_map]
  have : rowKey ∘ (fun k : GKey => QRow.mk k.1 k.2.1 k.2.2 (revSum ts k)) = id := by
    funext k
    exact rowKey_mk k _
  rw [this, List.map_id]

theorem groupAgg_keys_nodup (ts : List JTup) :
    ((groupAgg ts).map rowKey).Nodup := by
  rw [groupAgg_map_rowKey]
  exact List.nodup_dedup _

/-- Sorting two permuted grouped results with key-unique rows yields the same
list. -/
theorem mergeSort_groupAgg_eq {A B : List JTup} (h : A.Perm B) :
    (groupAgg A).mergeSort qrowLe = (groupAgg B).mergeSort qrowLe := by
  haveI : IsAntisymm QRow (fun x y => keyLtb (rowKey x) (rowKey y) = true) :=
    ⟨fun _ _ h1 h2 => (keyLtb_asymm h1 h2).elim⟩
  have permA : ((groupAgg A).mergeSort qrowLe).Perm (groupAgg A) :=
    List.mergeSort_perm _ _
  have permB : ((groupAgg B).mergeSort qrowLe).Perm (groupAgg B) :=
    List.mergeSort_perm _ _
  have hperm : ((groupAgg A).mergeSort qrowLe).Perm
      ((groupAgg B).mergeSort qrowLe) :=
    (permA.trans (groupAgg_perm h)).trans permB.symm
  have strict : ∀ (C : List JTup),
      List.Sorted (fun x y : QRow => keyLtb (rowKey x) (rowKey y) = true)
        ((groupAgg C).mergeSort qrowLe) := by
    intro C
    have hsort : ((groupAgg C).mergeSort qrowLe).Pairwise
        (fun a b => qrowLe a b = true) :=
      List.sorted_mergeSort qrowLe_trans qrowLe_total _
    have hnd : (((groupAgg C).mergeSort qrowLe).map rowKey).Nodup :=
      (List.Perm.map rowKey (List.mergeSort_perm _ _)).symm.nodup
        (groupAgg_keys_nodup C)
    have hne : ((groupAgg C).mergeSort qrowLe).Pairwise
        (fun a b => rowKey a ≠ rowKey b) :=
      List.pairwise_map.mp hnd
    refine (hsort.and hne).imp ?_
    intro a b ⟨hle, hab⟩
    rcases Bool.or_eq_true _ _ |>.mp hle with hlt | heq
    · exact hlt
    · exact absurd (beq_iff_eq.mp heq) hab
  exact List.eq_of_perm_of_sorted hperm (strict A) (strict B)

/-! ## Claim C1 -/

/-- C1: for every dataset (in particular the standard scale-1 TPC-H dataset),
the query-7 computation `q()` produces, for each
(supp_nation, cust_nation, l_year) group over the FRANCE/GERMANY pairs (either
orientation) with `l_shipdate` between 1995-01-01 and 1996-12-31 inclusive,
revenue equal to the sum of `l_extendedprice * (1 - l_discount)` over the
group's lineitems, with rows sorted by (supp_nation, cust_nation, l_year), and
the result equals the `q7.out` reference rows (modelled from the spec as
`q7Reference`) exactly. -/
theorem q7_matches_reference (nation : List Nation) (customer : List Customer)
    (orders : List Orders) (lineitem : List Lineitem)
    (supplier : List Supplier) :
    q nation customer orders lineitem supplier
        = q7Reference nation customer orders lineitem supplier
      ∧ List.Sorted (fun x y : QRow => qrowLe x y = true)
          (q nation customer orders lineitem supplier)
      ∧ ∀ r ∈ q nation customer orders lineitem supplier,
          r.revenue
            = revSum (specTuples nation customer orders lineitem supplier)
                (rowKey r) := by
  have hperm := shipped_perm_spec nation customer orders lineitem supplier
  refine ⟨mergeSort_groupAgg_eq hperm, ?_, ?_⟩
  · exact List.sorted_mergeSort qrowLe_trans qrowLe_total _
  · intro r hr
    have hr2 : r ∈ groupAgg (((joinedTuples customer
        (nation.filter (fun n => n.n_name == "FRANCE")) orders lineitem supplier
        (nation.filter (fun n => n.n_name == "GERMANY")))
      ++ (joinedTuples customer
        (nation.filter (fun n => n.n_name == "GERMANY")) orders lineitem supplier
        (nation.filter (fun n => n.n_name == "FRANCE")))).filter shipdateOk) :=
      (List.mergeSort_perm _ qrowLe).mem_iff.mp hr
    unfold groupAgg at hr2
    obtain ⟨k, _, rfl⟩ := List.mem_map.mp hr2
    show revSum _ k = revSum _ (rowKey _)
    rw [rowKey_mk, revSum_perm hperm]

/-! ## Claim C6 -/

/-- C6: the query computation is deterministic: for a fixed storage, running
`q()` twice through the cached loaders — from any cache state, the second run
continuing from the state the first run left — yields the same rows in the
same order. -/
theorem q7_run_deterministic (st : PolarsStorage) (c : PolarsCache) :
    (qRun st (qRun st c).2).1 = (qRun st c).1 := by
  rcases c with ⟨n, cu, o, l, s⟩
  cases n <;> cases cu <;> cases o <;> cases l <;> cases s <;> rfl

/-! ## Claim C4 -/

/-- C4 counterexample: the pandas dataset loader has no caching decorator, so
two calls within one process read the table from storage twice — not at most
once as the claim states. -/
theorem pandas_loader_rereads_storage :
    (get_line_item_ds_pandas (fun _ => (0 : Nat)) "tables_scale_1"
      (get_line_item_ds_pandas (fun _ => (0 : Nat)) "tables_scale_1" 0).2).2 = 2
    ∧ ¬ (get_line_item_ds_pandas (fun _ => (0 : Nat)) "tables_scale_1"
      (get_line_item_ds_pandas (fun _ => (0 : Nat)) "tables_scale_1" 0).2).2 ≤ 1 := by
  exact ⟨rfl, by decide⟩

/-- C4 amended: the dask loaders (wrapped in `on_second_call`) return the
cached result of the first call on any repeated call and read storage at most
once per process; the pandas loaders have no cache and read storage again on
every call. -/
theorem loader_caching_amended {α : Type} (storage : String → α)
    (d1 d2 : String) :
    ((get_line_item_ds_dask storage d2
        (get_line_item_ds_dask storage d1 ((none : Option α), 0)).2).1
      = (get_line_item_ds_dask storage d1 ((none : Option α), 0)).1
    ∧ (get_line_item_ds_dask storage d1 ((none : Option α), 0)).2.2 = 1
    ∧ (get_line_item_ds_dask storage d2
        (get_line_item_ds_dask storage d1 ((none : Option α), 0)).2).2.2 = 1)
    ∧ ∀ r : Nat,
      (get_line_item_ds_pandas storage d2
        (get_line_item_ds_pandas storage d1 r).2).2 = r + 2 :=
  ⟨⟨rfl, rfl, rfl⟩, fun _ => rfl⟩

/-! ## Claim C8 -/

/-- C8: `write_plot_image` writes the chart HTML into the configured plots
directory, under the name `plot_with_io.html` exactly when the include-IO
setting is on and `plot_without_io.html` exactly when it is off. -/
theorem write_plot_image_filename (io : Bool) (dir fig : String) :
    ((write_plot_image io dir fig).file_name = "plot_with_io.html" ↔ io = true)
    ∧ ((write_plot_image io dir fig).file_name = "plot_without_io.html"
        ↔ io = false)
    ∧ (write_plot_image io dir fig).dir = dir
    ∧ (write_plot_image io dir fig).content = fig := by
  cases io <;> refine ⟨?_, ?_, rfl, rfl⟩ <;> simp [write_plot_image]

/-! ## Helper lemmas: the verifier comparison loops -/

theorem compareColumnsDask_eq_true_iff (answer result : List Column)
    (hal : ∀ ac ∈ answer, ∃ rc, findColumn result ac.name = some rc
      ∧ rc.is_object = ac.is_object) :
    compareColumnsDask answer result = true ↔
      ∀ ac ∈ answer, ∀ rc, findColumn result ac.name = some rc →
        normDask ac.is_object rc.values = normDask ac.is_object ac.values := by
  unfold compareColumnsDask
  rw [List.all_eq_true]
  constructor
  · intro h ac hac rc hrc
    have hx := h ac hac
    rw [hrc] at hx
    dsimp only at hx
    by_cases ho : ac.is_object = true
    · rw [if_pos ho] at hx
      unfold normDask
      rw [if_pos ho, if_pos ho]
      exact beq_iff_eq.mp hx
    · rw [if_neg ho] at hx
      unfold normDask
      rw [if_neg ho, if_neg ho]
      exact beq_iff_eq.mp (Bool.and_eq_true _ _ |>.mp hx).2
  · intro h ac hac
    obtain ⟨rc, hrc, hdt⟩ := hal ac hac
    have hx := h ac hac rc hrc
    rw [hrc]
    dsimp only
    by_cases ho : ac.is_object = true
    · rw [if_pos ho]
      unfold normDask at hx
      rw [if_pos ho, if_pos ho] at hx
      exact beq_iff_eq.mpr hx
    · rw [if_neg ho]
      unfold normDask at hx
      rw [if_neg ho, if_neg ho] at hx
      rw [Bool.and_eq_true]
      exact ⟨beq_iff_eq.mpr hdt, beq_iff_eq.mpr hx⟩

theorem compareColumnsPandas_eq_true_iff (answer result : List Column)
    (hal : ∀ ac ∈ answer, ∃ rc, findColumn result ac.name = some rc
      ∧ rc.is_object = ac.is_object) :
    compareColumnsPandas answer result = true ↔
      ∀ ac ∈ answer, ∀ rc, findColumn result ac.name = some rc →
        rc.values = ac.values := by
  unfold compareColumnsPandas
  rw [List.all_eq_true]
  constructor
  · intro h ac hac rc hrc
    have hx := h ac hac
    rw [hrc] at hx
    dsimp only at hx
    by_cases ho : ac.is_object = true
    · rw [if_pos ho] at hx
      exact beq_iff_eq.mp hx
    · rw [if_neg ho] at hx
      exact beq_iff_eq.mp (Bool.and_eq_true _ _ |>.mp hx).2
  · intro h ac hac
    obtain ⟨rc, hrc, hdt⟩ := hal ac hac
    have hx := h ac hac rc hrc
    rw [hrc]
    dsimp only
    by_cases ho : ac.is_object = true
    · rw [if_pos ho]
      exact beq_iff_eq.mpr hx
    · rw [if_neg ho]
      rw [Bool.and_eq_true]
      exact ⟨beq_iff_eq.mpr hdt, beq_iff_eq.mpr hx⟩

/-! ## Claim C2 -/

/-- C2 counterexample: the claim says both verifiers trim surrounding
whitespace from object-column values of both sides before comparing, so a
result equal to the reference up to surrounding whitespace would be accepted.
The pandas verifier rejects such a result: it compares object columns without
trimming. -/
theorem pandas_verifier_requires_exact_strings :
    pyStrip " FOO" = pyStrip "FOO"
    ∧ compareColumnsPandas
        [{ name := "c", is_object := true, values := ["FOO"] }]
        [{ name := "c", is_object := true, values := [" FOO"] }] = false := by
  exact ⟨rfl, rfl⟩

/-- C2 amended: both verifiers load the matching reference answer file and
align columns by name; the dask verifier trims surrounding whitespace from the
object-column values of both the computed result and the reference and then
asserts element-wise equality per column, while the pandas verifier casts
object columns to string but compares them without trimming. -/
theorem test_results_normalization (q_num : Nat) (fs : String → List String)
    (result : List Column)
    (hal : ∀ ac ∈ get_query_answer q_num fs defaultAnswersDir,
      ∃ rc, findColumn result ac.name = some rc ∧ rc.is_object = ac.is_object) :
    (test_results_dask q_num fs result = true ↔
      ∀ ac ∈ get_query_answer q_num fs defaultAnswersDir,
        ∀ rc, findColumn result ac.name = some rc →
          normDask ac.is_object rc.values = normDask ac.is_object ac.values)
    ∧ (test_results_pandas q_num fs result = true ↔
      ∀ ac ∈ get_query_answer q_num fs defaultAnswersDir,
        ∀ rc, findColumn result ac.name = some rc →
          rc.values = ac.values) :=
  ⟨compareColumnsDask_eq_true_iff _ _ hal, compareColumnsPandas_eq_true_iff _ _ hal⟩

/-- Witness for the amended C2 theorem at a concrete reference file and
result. -/
theorem test_results_normalization_witness :
    (∀ ac ∈ get_query_answer 7 witnessFs defaultAnswersDir,
      ∃ rc, findColumn witnessResult ac.name = some rc
        ∧ rc.is_object = ac.is_object)
    ∧ ((test_results_dask 7 witnessFs witnessResult = true ↔
        ∀ ac ∈ get_query_answer 7 witnessFs defaultAnswersDir,
          ∀ rc, findColumn witnessResult ac.name = some rc →
            normDask ac.is_object rc.values = normDask ac.is_object ac.values)
      ∧ (test_results_pandas 7 witnessFs witnessResult = true ↔
        ∀ ac ∈ get_query_answer 7 witnessFs defaultAnswersDir,
          ∀ rc, findColumn witnessResult ac.name = some rc →
            rc.values = ac.values)) := by
  have hans : get_query_answer 7 witnessFs defaultAnswersDir = witnessResult := rfl
  have hal : ∀ ac ∈ get_query_answer 7 witnessFs defaultAnswersDir,
      ∃ rc, findColumn witnessResult ac.name = some rc
        ∧ rc.is_object = ac.is_object := by
    rw [hans]
    intro ac hac
    rcases List.mem_cons.mp hac with rfl | hac2
    · exact ⟨_, rfl, rfl⟩
    · rcases List.mem_cons.mp hac2 with rfl | hac3
      · exact ⟨_, rfl, rfl⟩
      · cases hac3
  exact ⟨hal, test_results_normalization 7 witnessFs witnessResult hal⟩

/-! ## Claim C3 -/

/-- C3: the verifier raises its assertion error if and only if some cell of
the computed result differs from the corresponding reference cell after the
verifier's normalization (cell-wise whitespace trimming of object columns for
the dask verifier, plain string casting for the pandas one); it returns
normally exactly when every aligned column matches. -/
theorem test_results_raises_iff (q_num : Nat) (fs : String → List String)
    (result : List Column)
    (hal : ∀ ac ∈ get_query_answer q_num fs defaultAnswersDir,
      ∃ rc, findColumn result ac.name = some rc ∧ rc.is_object = ac.is_object) :
    (test_results_dask q_num fs result = false ↔
      ∃ ac ∈ get_query_answer q_num fs defaultAnswersDir,
        ∃ rc, findColumn result ac.name = some rc
          ∧ normDask ac.is_object rc.values ≠ normDask ac.is_object ac.values)
    ∧ (test_results_pandas q_num fs result = false ↔
      ∃ ac ∈ get_query_answer q_num fs defaultAnswersDir,
        ∃ rc, findColumn result ac.name = some rc
          ∧ rc.values ≠ ac.values) := by
  constructor
  · rw [Bool.eq_false_iff, ne_eq,
      show test_results_dask q_num fs result
        = compareColumnsDask (get_query_answer q_num fs defaultAnswersDir) result
        from rfl,
      compareColumnsDask_eq_true_iff _ _ hal]
    push_neg
    rfl
  · rw [Bool.eq_false_iff, ne_eq,
      show test_results_pandas q_num fs result
        = compareColumnsPandas (get_query_answer q_num fs defaultAnswersDir) result
        from rfl,
      compareColumnsPandas_eq_true_iff _ _ hal]
    push_neg
    rfl

/-- Witness for the C3 theorem at a concrete reference file and result. -/
theorem test_results_raises_iff_witness :
    (∀ ac ∈ get_query_answer 7 witnessFs defaultAnswersDir,
      ∃ rc, findColumn witnessResult ac.name = some rc
        ∧ rc.is_object = ac.is_object)
    ∧ ((test_results_dask 7 witnessFs witnessResult = false ↔
        ∃ ac ∈ get_query_answer 7 witnessFs defaultAnswersDir,
          ∃ rc, findColumn witnessResult ac.name = some rc
            ∧ normDask ac.is_object rc.values ≠ normDask ac.is_object ac.values)
      ∧ (test_results_pandas 7 witnessFs witnessResult = false ↔
        ∃ ac ∈ get_query_answer 7 witnessFs defaultAnswersDir,
          ∃ rc, findColumn witnessResult ac.name = some rc
            ∧ rc.values ≠ ac.values)) := by
  have hans : get_query_answer 7 witnessFs defaultAnswersDir = witnessResult := rfl
  have hal : ∀ ac ∈ get_query_answer 7 witnessFs defaultAnswersDir,
      ∃ rc, findColumn witnessResult ac.name = some rc
        ∧ rc.is_object = ac.is_object := by
    rw [hans]
    intro ac hac
    rcases List.mem_cons.mp hac with rfl | hac2
    · exact ⟨_, rfl, rfl⟩
    · rcases List.mem_cons.mp hac2 with rfl | hac3
      · exact ⟨_, rfl, rfl⟩
      · cases hac3
  exact ⟨hal, test_results_raises_iff 7 witnessFs witnessResult hal⟩

/-! ## Claim C7 -/

/-- C7: `get_query_answer` reads the pipe-delimited file named `q{n}.out` from
the answers directory and returns a table whose column names are the file's
header names with surrounding whitespace stripped. -/
theorem get_query_answer_names (query : Nat) (fs : String → List String)
    (base_dir : String) (header : String) (body : List String)
    (hf : fs (joinPath base_dir ("q" ++ natToStr query ++ ".out"))
      = header :: body) :
    (get_query_answer query fs base_dir).map (fun c => c.name)
      = (splitPipe header).map pyStrip := by
  unfold get_query_answer parseCsv
  rw [hf]
  dsimp only
  rw [List.map_map, List.map_map]
  have hpt : ∀ p ∈ (splitPipe header).enum,
      (((fun c : Column => c.name) ∘ fun c : Column =>
          { name := pyStrip c.name, is_object := c.is_object, values := c.values })
        ∘ fun p : Nat × String =>
          ({ name := p.2,
             is_object := inferObject
               (List.map (fun r => r.getD p.1 "") (List.map splitPipe body)),
             values := List.map (fun r => r.getD p.1 "") (List.map splitPipe body) }
            : Column)) p
      = (pyStrip ∘ Prod.snd) p :=
    fun p _ => rfl
  rw [List.map_congr_left hpt, ← List.map_map, List.enum_map_snd]

/-- Witness for the C7 theorem at a concrete file. -/
theorem get_query_answer_names_witness :
    witnessFs (joinPath defaultAnswersDir ("q" ++ natToStr 7 ++ ".out"))
      = "a|b" :: ["x|1"]
    ∧ (get_query_answer 7 witnessFs defaultAnswersDir).map (fun c => c.name)
      = (splitPipe "a|b").map pyStrip :=
  ⟨rfl, get_query_answer_names 7 witnessFs defaultAnswersDir "a|b" ["x|1"] rfl⟩

/-! ## Helper lemmas: prep_data -/

theorem lastOfKey_inv {rows : List TimingRecord} {k : String × String × Nat}
    {r : TimingRecord}
    (h : (rows.filter (fun x => tkey x == k)).getLast? = some r) :
    tkey r = k ∧ r ∈ rows := by
  obtain ⟨ys, hys⟩ := List.getLast?_eq_some_iff.mp h
  have hr : r ∈ rows.filter (fun x => tkey x == k) := by
    rw [hys]; simp
  have hm := List.mem_filter.mp hr
  exact ⟨beq_iff_eq.mp hm.2, hm.1⟩

theorem mem_groupLast {rows : List TimingRecord} {r : TimingRecord}
    (h : r ∈ groupLast rows) : r ∈ rows := by
  obtain ⟨k, _, hsome⟩ := List.mem_filterMap.mp h
  exact (lastOfKey_inv hsome).2

theorem groupLast_keys_nodup (rows : List TimingRecord) :
    ((groupLast rows).map tkey).Nodup :=
  nodup_map_filterMap (List.nodup_dedup _) _ tkey
    (fun _ _ h => (lastOfKey_inv h).1)

theorem countP_beq_le_one {α : Type} [BEq α] [LawfulBEq α] {l : List α}
    (h : l.Nodup) (K : α) : List.countP (fun x => x == K) l ≤ 1 := by
  induction l with
  | nil => simp
  | cons a t ih =>
    rw [List.countP_cons]
    obtain ⟨ha, ht⟩ := List.nodup_cons.mp h
    by_cases he : (a == K) = true
    · have hz : List.countP (fun x => x == K) t = 0 := by
        rw [List.countP_eq_zero]
        intro b hb hbK
        have hba : b = a := (beq_iff_eq.mp hbK).trans (beq_iff_eq.mp he).symm
        exact ha (hba ▸ hb)
      simp [hz, he]
    · have he0 : (a == K) = false := Bool.not_eq_true _ |>.mp he
      simpa [he0] using ih ht

theorem key_countP_le_one {g : List TimingRecord} (hnd : (g.map tkey).Nodup)
    (K : String × String × Nat) :
    List.countP (fun r => tkey r == K) g ≤ 1 := by
  have heq : List.countP (fun r => tkey r == K) g
      = List.countP (fun x => x == K) (g.map tkey) := by
    rw [List.countP_map]
    rfl
  rw [heq]
  exact countP_beq_le_one hnd K

theorem mem_groupLast_of_getLast {rows : List TimingRecord}
    {K : String × String × Nat} {r0 : TimingRecord}
    (h : (rows.filter (fun x => tkey x == K)).getLast? = some r0) :
    r0 ∈ groupLast rows := by
  apply List.mem_filterMap.mpr
  refine ⟨K, ?_, h⟩
  obtain ⟨ys, hys⟩ := List.getLast?_eq_some_iff.mp h
  have hr : r0 ∈ rows.filter (fun x => tkey x == K) := by
    rw [hys]; simp
  have hm := List.mem_filter.mp hr
  rw [List.mem_dedup]
  exact List.mem_map.mpr ⟨r0, hm.1, beq_iff_eq.mp hm.2⟩

theorem mem_cellJL {g : List TimingRecord} {sv : String × String} {qn : Nat}
    {jr : JoinedRow} (h : jr ∈ cellJL g sv qn) :
    jr.solution = sv.1 ∧ jr.version = sv.2 ∧ jr.query_number = qn := by
  unfold cellJL at h
  split at h
  · rcases List.mem_cons.mp h with rfl | h2
    · exact ⟨rfl, rfl, rfl⟩
    · cases h2
  · obtain ⟨m, _, rfl⟩ := List.mem_map.mp h
    exact ⟨rfl, rfl, rfl⟩

theorem cellJL_length_one {g : List TimingRecord} (hnd : (g.map tkey).Nodup)
    (sv : String × String) (qn : Nat) : (cellJL g sv qn).length = 1 := by
  unfold cellJL
  split
  · rfl
  · rename_i hne
    rw [List.length_map]
    have hle : (g.filter (fun r => tkey r == (sv.1, sv.2, qn))).length ≤ 1 := by
      rw [← List.countP_eq_length_filter]
      exact key_countP_le_one hnd _
    have hpos : 0 < (g.filter (fun r => tkey r == (sv.1, sv.2, qn))).length := by
      rcases Nat.eq_zero_or_pos (g.filter (fun r => tkey r == (sv.1, sv.2, qn))).length
        with hz | hp
      · exact absurd (List.isEmpty_iff.mpr (List.length_eq_zero.mp hz)) hne
      · exact hp
    omega

theorem countP_cellJL_match {g : List TimingRecord} (hnd : (g.map tkey).Nodup)
    (s v : String) (qn : Nat) :
    List.countP
      (fun r : JoinedRow => r.solution == s && r.version == v && r.query_number == qn)
      (cellJL g (s, v) qn) = 1 := by
  have hall : ∀ jr ∈ cellJL g (s, v) qn,
      (jr.solution == s && jr.version == v && jr.query_number == qn) = true := by
    intro jr hjr
    obtain ⟨h1, h2, h3⟩ := mem_cellJL hjr
    simp [h1, h2, h3]
  rw [List.countP_eq_length.mpr hall]
  exact cellJL_length_one hnd (s, v) qn

theorem countP_cellJL_mismatch {g : List TimingRecord} {sv : String × String}
    {qn' : Nat} (s v : String) (qn : Nat)
    (hne : ¬(sv.1 = s ∧ sv.2 = v ∧ qn' = qn)) :
    List.countP
      (fun r : JoinedRow => r.solution == s && r.version == v && r.query_number == qn)
      (cellJL g sv qn') = 0 := by
  rw [List.countP_eq_zero]
  intro jr hjr hP
  obtain ⟨h1, h2, h3⟩ := mem_cellJL hjr
  simp only [Bool.and_eq_true, beq_iff_eq] at hP
  exact hne ⟨h1 ▸ hP.1.1, h2 ▸ hP.1.2, h3 ▸ hP.2⟩

theorem joinLeft_countP {g : List TimingRecord} (hnd : (g.map tkey).Nodup)
    {groups : List (String × String)} {qs : List Nat}
    (hgn : groups.Nodup) (hqn : qs.Nodup) (s v : String) (qn : Nat)
    (hg : (s, v) ∈ groups) (hq : qn ∈ qs) :
    List.countP
      (fun r : JoinedRow => r.solution == s && r.version == v && r.query_number == qn)
      (joinLeft groups qs g) = 1 := by
  unfold joinLeft
  rw [List.countP_flatMap]
  rw [sum_map_single hgn (s, v) hg _ ?_]
  · show List.countP _ (qs.flatMap fun qn' => cellJL g (s, v) qn') = 1
    rw [List.countP_flatMap]
    rw [sum_map_single hqn qn hq _ ?_]
    · exact countP_cellJL_match hnd s v qn
    · intro qn' _ hne
      exact countP_cellJL_mismatch s v qn (fun hc => hne hc.2.2)
  · intro sv _ hne
    show List.countP _ (qs.flatMap fun qn' => cellJL g sv qn') = 0
    rw [List.countP_flatMap]
    apply List.sum_eq_zero
    intro x hx
    obtain ⟨qn', _, rfl⟩ := List.mem_map.mp hx
    exact countP_cellJL_mismatch s v qn
      (fun hc => hne (Prod.ext hc.1 hc.2.1))

theorem queryRange_nodup (n : Nat) : (queryRange n).Nodup :=
  List.Nodup.map (fun a b h => by omega) (List.nodup_range n)

theorem mem_queryRange {n qn : Nat} : qn ∈ queryRange n ↔ 1 ≤ qn ∧ qn ≤ n := by
  unfold queryRange
  constructor
  · intro h
    obtain ⟨i, hi, rfl⟩ := List.mem_map.mp h
    rw [List.mem_range] at hi
    omega
  · intro ⟨h1, h2⟩
    exact List.mem_map.mpr ⟨qn - 1, List.mem_range.mpr (by omega), by omega⟩

theorem colorKeys_nodup : colorKeys.Nodup := by decide

theorem contains_iff_mem {l : List String} {a : String} :
    l.contains a = true ↔ a ∈ l := by
  rw [List.contains_iff_exists_mem_beq]
  constructor
  · rintro ⟨b, hb, he⟩
    rwa [beq_iff_eq.mp he]
  · intro h
    exact ⟨a, h, by simp⟩

theorem mem_joinLeft {groups : List (String × String)} {qs : List Nat}
    {g : List TimingRecord} {jr : JoinedRow} (h : jr ∈ joinLeft groups qs g) :
    ∃ sv ∈ groups, ∃ qn' ∈ qs, jr ∈ cellJL g sv qn' := by
  unfold joinLeft at h
  obtain ⟨sv, hsv, h2⟩ := List.mem_flatMap.mp h
  obtain ⟨qn', hq, h3⟩ := List.mem_flatMap.mp h2
  exact ⟨sv, hsv, qn', hq, h3⟩

theorem cellJL_of_no_match {g : List TimingRecord} {sv : String × String}
    {qn : Nat} (h : g.filter (fun r => tkey r == (sv.1, sv.2, qn)) = []) :
    cellJL g sv qn = [⟨sv.1, sv.2, qn, none⟩] := by
  unfold cellJL
  rw [h]
  rfl

theorem mem_cellJL_of_mem_filter {g : List TimingRecord} {sv : String × String}
    {qn : Nat} {r0 : TimingRecord}
    (h : r0 ∈ g.filter (fun r => tkey r == (sv.1, sv.2, qn))) :
    (⟨sv.1, sv.2, qn, some r0.duration⟩ : JoinedRow) ∈ cellJL g sv qn := by
  unfold cellJL
  have hne : ¬ (g.filter (fun r => tkey r == (sv.1, sv.2, qn))).isEmpty = true := by
    rw [List.isEmpty_iff]
    intro he
    rw [he] at h
    cases h
  rw [if_neg hne]
  exact List.mem_map.mpr ⟨r0, h, rfl⟩

theorem countP_fillNullZero (jl : List JoinedRow) (s v : String) (qn : Nat) :
    List.countP
      (fun r : FilledRow => r.solution == s && r.version == v && r.query_number == qn)
      (fillNullZero jl)
    = List.countP
      (fun r : JoinedRow => r.solution == s && r.version == v && r.query_number == qn)
      jl := by
  unfold fillNullZero
  rw [List.countP_map]
  rfl

theorem countP_joinBySolution {sols : List String} (hnd : sols.Nodup)
    {joined : List FilledRow} (s : String) (hs : s ∈ sols)
    (P : FilledRow → Bool) (hforce : ∀ r, P r = true → r.solution = s) :
    List.countP P (joinBySolution sols joined) = List.countP P joined := by
  unfold joinBySolution
  rw [List.countP_flatMap]
  rw [sum_map_single hnd s hs _ ?_]
  · show List.countP P (joined.filter (fun r => r.solution == s)) = _
    rw [List.countP_filter]
    apply List.countP_congr
    intro r _
    constructor
    · intro h
      exact (Bool.and_eq_true _ _ |>.mp h).1
    · intro h
      rw [Bool.and_eq_true]
      exact ⟨h, beq_iff_eq.mpr (hforce r h)⟩
  · intro s2 _ hne
    show List.countP P (joined.filter (fun r => r.solution == s2)) = 0
    rw [List.countP_eq_zero]
    intro r hr hP
    have hm := List.mem_filter.mp hr
    exact hne ((beq_iff_eq.mp hm.2).symm.trans (hforce r hP))

theorem mem_joinBySolution {sols : List String} {joined : List FilledRow}
    {fr : FilledRow} (h : fr ∈ joinBySolution sols joined) :
    fr.solution ∈ sols ∧ fr ∈ joined := by
  unfold joinBySolution at h
  obtain ⟨s2, hs2, h2⟩ := List.mem_flatMap.mp h
  have hm := List.mem_filter.mp h2
  exact ⟨(beq_iff_eq.mp hm.2) ▸ hs2, hm.1⟩

theorem mem_joinBySolution_of {sols : List String} {joined : List FilledRow}
    {fr : FilledRow} (h1 : fr.solution ∈ sols) (h2 : fr ∈ joined) :
    fr ∈ joinBySolution sols joined :=
  List.mem_flatMap.mpr ⟨fr.solution, h1, List.mem_filter.mpr ⟨h2, by simp⟩⟩

/-! ## Claim C5 -/

/-- C5: for every timing CSV, `prep_data` produces exactly one output row per
(solution, version, query-number-as-string) for each query number from 1 to
the configured number of queries — for each (solution, version) group present
in the filtered data whose solution has a COLORS entry; combinations absent
from the CSV get a duration of zero, and no solution present in COLORS and in
the data is dropped from the output. -/
theorem prep_data_complete (io : Bool) (n : Nat) (csv : List TimingRecord)
    (s v : String) (qn : Nat)
    (hs : s ∈ colorKeys)
    (hg : (s, v) ∈ groupsOf (groupLast (filteredTimings io n csv)))
    (h1 : 1 ≤ qn) (h2 : qn ≤ n) :
    List.countP
      (fun r : PlotRow => r.solution == s && r.version == v && r.query == formatQ qn)
      (prep_data io n csv) = 1
    ∧ ((filteredTimings io n csv).filter (fun x => tkey x == (s, v, qn)) = [] →
        ∀ r ∈ prep_data io n csv,
          r.solution = s → r.version = v → r.query = formatQ qn → r.duration = 0)
    ∧ ∃ r ∈ prep_data io n csv, r.solution = s := by
  have hndk := groupLast_keys_nodup (filteredTimings io n csv)
  have cnt_jl : List.countP
      (fun r : JoinedRow => r.solution == s && r.version == v && r.query_number == qn)
      (joinLeft (groupsOf (groupLast (filteredTimings io n csv))) (queryRange n)
        (groupLast (filteredTimings io n csv))) = 1 :=
    joinLeft_countP hndk (List.nodup_dedup _) (queryRange_nodup n) s v qn hg
      (mem_queryRange.mpr ⟨h1, h2⟩)
  have cnt_joined : List.countP
      (fun r : FilledRow => r.solution == s && r.version == v && r.query_number == qn)
      (fillNullZero (joinLeft (groupsOf (groupLast (filteredTimings io n csv)))
        (queryRange n) (groupLast (filteredTimings io n csv)))) = 1 := by
    rw [countP_fillNullZero]
    exact cnt_jl
  have hex_joined : ∃ fr ∈ fillNullZero (joinLeft
      (groupsOf (groupLast (filteredTimings io n csv))) (queryRange n)
      (groupLast (filteredTimings io n csv))),
      (fr.solution == s && fr.version == v && fr.query_number == qn) = true := by
    apply List.countP_pos_iff.mp
    omega
  have hsols : s ∈ solutionFrame (fillNullZero (joinLeft
      (groupsOf (groupLast (filteredTimings io n csv))) (queryRange n)
      (groupLast (filteredTimings io n csv)))) := by
    obtain ⟨fr, hfr, hPfr⟩ := hex_joined
    simp only [Bool.and_eq_true, beq_iff_eq] at hPfr
    apply List.mem_filter.mpr
    refine ⟨hs, ?_⟩
    apply contains_iff_mem.mpr
    unfold solutionsInData
    rw [List.mem_dedup]
    exact List.mem_map.mpr ⟨fr, hfr, hPfr.1.1⟩
  have hsolsnd : (solutionFrame (fillNullZero (joinLeft
      (groupsOf (groupLast (filteredTimings io n csv))) (queryRange n)
      (groupLast (filteredTimings io n csv))))).Nodup :=
    colorKeys_nodup.filter _
  have cnt_final : List.countP
      (fun r : FilledRow => r.solution == s && r.version == v && r.query_number == qn)
      (joinBySolution (solutionFrame (fillNullZero (joinLeft
        (groupsOf (groupLast (filteredTimings io n csv))) (queryRange n)
        (groupLast (filteredTimings io n csv)))))
       (fillNullZero (joinLeft (groupsOf (groupLast (filteredTimings io n csv)))
        (queryRange n) (groupLast (filteredTimings io n csv))))) = 1 := by
    rw [countP_joinBySolution hsolsnd s hsols _ ?_]
    · exact cnt_joined
    · intro r h
      simp only [Bool.and_eq_true, beq_iff_eq] at h
      exact h.1.1
  have cnt_out : List.countP
      (fun r : PlotRow => r.solution == s && r.version == v && r.query == formatQ qn)
      (prep_data io n csv) = 1 := by
    show List.countP _ (List.map _ (joinBySolution _ _)) = 1
    rw [List.countP_map]
    rw [List.countP_congr ?_]
    · exact cnt_final
    · intro r _
      simp only [Function.comp, Bool.and_eq_true, beq_iff_eq]
      constructor
      · intro h
        exact ⟨h.1, formatQ_injective h.2⟩
      · intro h
        exact ⟨h.1, by rw [h.2]⟩
  refine ⟨cnt_out, ?_, ?_⟩
  · intro habs r hr hrs hrv hrq
    obtain ⟨fr, hfr, rfl⟩ := List.mem_map.mp hr
    obtain ⟨_, hfr_joined⟩ := mem_joinBySolution hfr
    obtain ⟨jr, hjr, rfl⟩ := List.mem_map.mp hfr_joined
    obtain ⟨sv, _, qn2, _, hcell⟩ := mem_joinLeft hjr
    obtain ⟨e1, e2, e3⟩ := mem_cellJL hcell
    have hsv1 : sv.1 = s := e1 ▸ hrs
    have hsv2 : sv.2 = v := e2 ▸ hrv
    have hqq : qn2 = qn := e3 ▸ formatQ_injective hrq
    have hmsnil : (groupLast (filteredTimings io n csv)).filter
        (fun x => tkey x == (sv.1, sv.2, qn2)) = [] := by
      rw [List.filter_eq_nil_iff]
      intro x hx hbeq
      have hxlf : x ∈ filteredTimings io n csv := mem_groupLast hx
      rw [hsv1, hsv2, hqq] at hbeq
      exact List.filter_eq_nil_iff.mp habs x hxlf hbeq
    rw [cellJL_of_no_match hmsnil] at hcell
    rcases List.mem_cons.mp hcell with rfl | hc2
    · rfl
    · cases hc2
  · have hpos : 0 < List.countP
        (fun r : PlotRow => r.solution == s && r.version == v && r.query == formatQ qn)
        (prep_data io n csv) := by
      omega
    obtain ⟨r, hr, hP⟩ := List.countP_pos_iff.mp hpos
    simp only [Bool.and_eq_true, beq_iff_eq] at hP
    exact ⟨r, hr, hP.1.1⟩

/-- Witness for the C5 theorem at a concrete one-row timing CSV, asking for
the missing query number 2. -/
theorem prep_data_complete_witness :
    "polars" ∈ colorKeys
    ∧ ("polars", "1.0") ∈ groupsOf (groupLast (filteredTimings false 2 witnessCsv))
    ∧ 1 ≤ 2 ∧ 2 ≤ 2
    ∧ (List.countP
        (fun r : PlotRow =>
          r.solution == "polars" && r.version == "1.0" && r.query == formatQ 2)
        (prep_data false 2 witnessCsv) = 1
      ∧ ((filteredTimings false 2 witnessCsv).filter
          (fun x => tkey x == ("polars", "1.0", 2)) = [] →
          ∀ r ∈ prep_data false 2 witnessCsv,
            r.solution = "polars" → r.version = "1.0" → r.query = formatQ 2 →
              r.duration = 0)
      ∧ ∃ r ∈ prep_data false 2 witnessCsv, r.solution = "polars") :=
  ⟨by decide, by decide, by decide, by decide,
    prep_data_complete false 2 witnessCsv "polars" "1.0" 2
      (by decide) (by decide) (by decide) (by decide)⟩

/-! ## Claim C9 -/

/-- C9: when the filtered timing CSV contains rows for a (solution, version,
query_number) combination, the output duration for that combination is the
last such row's duration: the row built from the last entry appears in
`prep_data`'s output. -/
theorem prep_data_keeps_last (io : Bool) (n : Nat) (csv : List TimingRecord)
    (s v : String) (qn : Nat) (r0 : TimingRecord)
    (hs : s ∈ colorKeys) (h1 : 1 ≤ qn)
    (hlast : ((filteredTimings io n csv).filter
      (fun x => tkey x == (s, v, qn))).getLast? = some r0) :
    (⟨s, v, formatQ qn, r0.duration⟩ : PlotRow) ∈ prep_data io n csv := by
  obtain ⟨hkey, hmemlf⟩ := lastOfKey_inv hlast
  have hr0g : r0 ∈ groupLast (filteredTimings io n csv) :=
    mem_groupLast_of_getLast hlast
  have hcomp : r0.solution = s ∧ r0.version = v ∧ r0.query_number = qn := by
    have := hkey
    simp only [tkey, Prod.mk.injEq] at this
    exact this
  have hq2 : qn ≤ n := by
    have hm := (List.mem_filter.mp hmemlf).2
    rw [decide_eq_true_eq] at hm
    rw [← hcomp.2.2]
    exact hm
  have hmemf : r0 ∈ (groupLast (filteredTimings io n csv)).filter
      (fun r => tkey r == (((s, v) : String × String).1,
        ((s, v) : String × String).2, qn)) :=
    List.mem_filter.mpr ⟨hr0g, beq_iff_eq.mpr hkey⟩
  have hcell := mem_cellJL_of_mem_filter hmemf
  have hgroups : (s, v) ∈ groupsOf (groupLast (filteredTimings io n csv)) := by
    unfold groupsOf
    rw [List.mem_dedup]
    exact List.mem_map.mpr ⟨r0, hr0g, by rw [hcomp.1, hcomp.2.1]⟩
  have hjl : (⟨s, v, qn, some r0.duration⟩ : JoinedRow)
      ∈ joinLeft (groupsOf (groupLast (filteredTimings io n csv))) (queryRange n)
        (groupLast (filteredTimings io n csv)) := by
    unfold joinLeft
    exact List.mem_flatMap.mpr ⟨(s, v), hgroups,
      List.mem_flatMap.mpr ⟨qn, mem_queryRange.mpr ⟨h1, hq2⟩, hcell⟩⟩
  have hjoined : (⟨s, v, qn, r0.duration⟩ : FilledRow)
      ∈ fillNullZero (joinLeft (groupsOf (groupLast (filteredTimings io n csv)))
        (queryRange n) (groupLast (filteredTimings io n csv))) :=
    List.mem_map.mpr ⟨⟨s, v, qn, some r0.duration⟩, hjl, rfl⟩
  have hsols : s ∈ solutionFrame (fillNullZero (joinLeft
      (groupsOf (groupLast (filteredTimings io n csv))) (queryRange n)
      (groupLast (filteredTimings io n csv)))) := by
    apply List.mem_filter.mpr
    refine ⟨hs, ?_⟩
    apply contains_iff_mem.mpr
    unfold solutionsInData
    rw [List.mem_dedup]
    exact List.mem_map.mpr ⟨⟨s, v, qn, r0.duration⟩, hjoined, rfl⟩
  have hfinal : (⟨s, v, qn, r0.duration⟩ : FilledRow)
      ∈ joinBySolution (solutionFrame (fillNullZero (joinLeft
        (groupsOf (groupLast (filteredTimings io n csv))) (queryRange n)
        (groupLast (filteredTimings io n csv)))))
       (fillNullZero (joinLeft (groupsOf (groupLast (filteredTimings io n csv)))
        (queryRange n) (groupLast (filteredTimings io n csv)))) :=
    mem_joinBySolution_of hsols hjoined
  exact List.mem_map.mpr ⟨⟨s, v, qn, r0.duration⟩, hfinal, rfl⟩

/-- Witness for the C9 theorem: a CSV holding two timings for the same
(solution, version, query); the output keeps the later duration 7. -/
theorem prep_data_keeps_last_witness :
    "polars" ∈ colorKeys
    ∧ 1 ≤ 1
    ∧ ((filteredTimings false 2 witnessCsv2).filter
        (fun x => tkey x == ("polars", "1.0", 1))).getLast?
      = some ⟨"polars", "1.0", 1, false, 7⟩
    ∧ (⟨"polars", "1.0", formatQ 1,
        (⟨"polars", "1.0", 1, false, 7⟩ : TimingRecord).duration⟩ : PlotRow)
      ∈ prep_data false 2 witnessCsv2 :=
  ⟨by decide, by decide, rfl,
    prep_data_keeps_last false 2 witnessCsv2 "polars" "1.0" 1
      ⟨"polars", "1.0", 1, false, 7⟩ (by decide) (by decide) rfl⟩

/-! ## Claim C10 -/

/-- C10: every row of `prep_data`'s output has a solution that is a key of
COLORS (rows whose solution lacks a COLORS entry are silently dropped), and
the output's solution column is ordered by the key order of COLORS, so the
surviving solutions appear grouped in that order. -/
theorem prep_data_solutions_from_colors (io : Bool) (n : Nat)
    (csv : List TimingRecord) :
    (∀ r ∈ prep_data io n csv, r.solution ∈ colorKeys)
    ∧ ((prep_data io n csv).map (fun r => r.solution)).Pairwise
        (fun a b => List.indexOf a colorKeys ≤ List.indexOf b colorKeys) := by
  constructor
  · intro r hr
    obtain ⟨fr, hfr, rfl⟩ := List.mem_map.mp hr
    obtain ⟨hsol, _⟩ := mem_joinBySolution hfr
    exact (List.mem_filter.mp hsol).1
  · show (List.map _ (List.map _ (joinBySolution _ _))).Pairwise _
    rw [List.map_map]
    unfold joinBySolution
    rw [List.map_flatMap]
    rw [List.pairwise_flatMap]
    constructor
    · intro s2 _
      apply List.pairwise_of_forall_mem_list
      intro a ha b hb
      obtain ⟨fa, hfa, rfl⟩ := List.mem_map.mp ha
      obtain ⟨fb, hfb, rfl⟩ := List.mem_map.mp hb
      have ea : fa.solution = s2 := beq_iff_eq.mp (List.mem_filter.mp hfa).2
      have eb : fb.solution = s2 := beq_iff_eq.mp (List.mem_filter.mp hfb).2
      show List.indexOf fa.solution colorKeys ≤ List.indexOf fb.solution colorKeys
      rw [ea, eb]
    · have hck : colorKeys.Pairwise
          (fun s1 s2 => List.indexOf s1 colorKeys ≤ List.indexOf s2 colorKeys) := by
        decide
      have hpw := hck.filter
        (fun s2 => (solutionsInData (fillNullZero (joinLeft
          (groupsOf (groupLast (filteredTimings io n csv))) (queryRange n)
          (groupLast (filteredTimings io n csv))))).contains s2)
      apply hpw.imp
      intro s1 s2 h x hx y hy
      obtain ⟨fx, hfx, rfl⟩ := List.mem_map.mp hx
      obtain ⟨fy, hfy, rfl⟩ := List.mem_map.mp hy
      have ex : fx.solution = s1 := beq_iff_eq.mp (List.mem_filter.mp hfx).2
      have ey : fy.solution = s2 := beq_iff_eq.mp (List.mem_filter.mp hfy).2
      show List.indexOf fx.solution colorKeys ≤ List.indexOf fy.solution colorKeys
      rw [ex, ey]
      exact h

end TPCH
